import Mathlib

set_option maxRecDepth 8192

namespace Apfsck

/-! Shallow embedding of the apfsck validation core (object.c, key.c, extents.h).

A disk block is modelled as the list of its 32-bit little-endian words, in
order; a raw key is modelled as the list of its bytes.  Machine integers are
`Nat` with explicit `% 2 ^ 64` where 64-bit overflow could matter. -/

/-- The running-sums loop of `fletcher64` (object.c): for each 32-bit
little-endian word, `sum1 += word; sum2 += sum1`, both sums held in `u64`
variables, so each update wraps modulo `2 ^ 64`. -/
def flSums : List Nat → Nat → Nat → Nat × Nat
  | [], s1, s2 => (s1, s2)
  | w :: ws, s1, s2 =>
      let s1x := (s1 + w) % 2 ^ 64
      flSums ws s1x ((s2 + s1x) % 2 ^ 64)

/-- `fletcher64` from object.c: run the two sums over the buffer words, then
`c1 = 0xFFFFFFFF - (sum1 + sum2) % 0xFFFFFFFF`,
`c2 = 0xFFFFFFFF - (sum1 + c1) % 0xFFFFFFFF`, result `(c2 << 32) | c1`.
The two intermediate additions are `u64` additions, hence the `% 2 ^ 64`. -/
def fletcher64 (buff : List Nat) : Nat :=
  let s := flSums buff 0 0
  let c1 := 0xFFFFFFFF - (s.1 + s.2) % 2 ^ 64 % 0xFFFFFFFF
  let c2 := 0xFFFFFFFF - (s.1 + c1) % 2 ^ 64 % 0xFFFFFFFF
  (c2 <<< 32) ||| c1

/-- Checksum field of an object header: little-endian 64-bit value in the
first eight bytes of the block (words 0 and 1). -/
def o_cksum (block : List Nat) : Nat := block.getD 0 0 + 2 ^ 32 * block.getD 1 0

/-- Object id field of an object header (bytes 8-15, words 2 and 3). -/
def o_oid (block : List Nat) : Nat := block.getD 2 0 + 2 ^ 32 * block.getD 3 0

/-- Transaction id field of an object header (bytes 16-23, words 4 and 5). -/
def o_xid (block : List Nat) : Nat := block.getD 4 0 + 2 ^ 32 * block.getD 5 0

/-- Type-and-flags field of an object header (bytes 24-27, word 6). -/
def o_type (block : List Nat) : Nat := block.getD 6 0

/-- Subtype field of an object header (bytes 28-31, word 7). -/
def o_subtype (block : List Nat) : Nat := block.getD 7 0

/-- Size in bytes of the on-disk checksum field (`APFS_MAX_CKSUM_SIZE`),
that is, the first two 32-bit words of the block. -/
def APFS_MAX_CKSUM_SIZE : Nat := 8

/-- `obj_verify_csum` from object.c: the stored 64-bit checksum equals the
fletcher64 checksum of the block body past the checksum field
(`(char *)obj + APFS_MAX_CKSUM_SIZE`, i.e. the words from index 2 on). -/
def obj_verify_csum (block : List Nat) : Bool :=
  o_cksum block == fletcher64 (block.drop 2)

/-- The running sums exactly as the spec phrases them, with unbounded
mathematical integers: `sum1 += word; sum2 += sum1` per word. -/
def flSpecSums : List Nat → Nat → Nat → Nat × Nat
  | [], s1, s2 => (s1, s2)
  | w :: ws, s1, s2 => flSpecSums ws (s1 + w) (s2 + (s1 + w))

/-- The checksum as the spec describes it: `c1 = (2^32-1) - ((sum1+sum2) mod
(2^32-1))`, `c2 = (2^32-1) - ((sum1+c1) mod (2^32-1))`, and `c2` packed into
the high 32 bits with `c1` in the low 32 bits. -/
def fletcherSpec (body : List Nat) : Nat :=
  let s := flSpecSums body 0 0
  let c1 := 0xFFFFFFFF - (s.1 + s.2) % 0xFFFFFFFF
  let c2 := 0xFFFFFFFF - (s.1 + c1) % 0xFFFFFFFF
  c2 * 2 ^ 32 + c1

theorem flSpecSums_fst (ws : List Nat) (s1 s2 : Nat) :
    (flSpecSums ws s1 s2).1 = s1 + ws.sum := by
  induction ws generalizing s1 s2 with
  | nil => simp [flSpecSums]
  | cons w ws ih => simp [flSpecSums, ih]; omega

theorem flSpecSums_snd_le (ws : List Nat) (s1 s2 : Nat) :
    (flSpecSums ws s1 s2).2 ≤ s2 + ws.length * (s1 + ws.sum) := by
  induction ws generalizing s1 s2 with
  | nil => simp [flSpecSums]
  | cons w ws ih =>
      have h := ih (s1 + w) (s2 + (s1 + w))
      have hmul : (ws.length + 1) * (s1 + (w + ws.sum)) =
          ws.length * (s1 + (w + ws.sum)) + (s1 + (w + ws.sum)) := by ring
      have hmono : ws.length * ((s1 + w) + ws.sum) =
          ws.length * (s1 + (w + ws.sum)) := by ring_nf
      simp only [flSpecSums, List.length_cons, List.sum_cons]
      omega

theorem flSums_eq_spec (ws : List Nat) (s1 s2 : Nat)
    (h1 : s1 + ws.sum < 2 ^ 64)
    (h2 : s2 + ws.length * (s1 + ws.sum) < 2 ^ 64) :
    flSums ws s1 s2 = flSpecSums ws s1 s2 := by
  induction ws generalizing s1 s2 with
  | nil => rfl
  | cons w ws ih =>
      simp only [List.sum_cons, List.length_cons] at h1 h2
      have hmul : (ws.length + 1) * (s1 + (w + ws.sum)) =
          ws.length * (s1 + (w + ws.sum)) + (s1 + (w + ws.sum)) := by ring
      have hS : ws.length * ((s1 + w) + ws.sum) =
          ws.length * (s1 + (w + ws.sum)) := by ring_nf
      have hs1 : (s1 + w) % 2 ^ 64 = s1 + w := Nat.mod_eq_of_lt (by omega)
      have hs2 : (s2 + (s1 + w)) % 2 ^ 64 = s2 + (s1 + w) := by
        have : s2 + (s1 + w) < 2 ^ 64 := by omega
        exact Nat.mod_eq_of_lt this
      simp only [flSums, flSpecSums, hs1, hs2]
      exact ih (s1 + w) (s2 + (s1 + w)) (by omega) (by omega)

theorem fletcher64_eq_spec (body : List Nat)
    (hw : ∀ w ∈ body, w < 2 ^ 32) (hlen : body.length ≤ 2 ^ 15) :
    fletcher64 body = fletcherSpec body := by
  have hsum : body.sum ≤ body.length * (2 ^ 32 - 1) := by
    have := List.sum_le_card_nsmul body (2 ^ 32 - 1) (fun x hx => by
      have := hw x hx; omega)
    simpa [smul_eq_mul] using this
  have hsum2 : body.sum < 2 ^ 47 := by
    have h1 : body.length * (2 ^ 32 - 1) ≤ 2 ^ 15 * (2 ^ 32 - 1) :=
      Nat.mul_le_mul_right _ hlen
    omega
  have hlenmul : body.length * (0 + body.sum) ≤ 2 ^ 15 * (0 + body.sum) :=
    Nat.mul_le_mul_right _ hlen
  have hbig : body.length * (0 + body.sum) < 2 ^ 63 := by
    have h2 : 2 ^ 15 * (0 + body.sum) ≤ 2 ^ 15 * (2 ^ 47 - 1) :=
      Nat.mul_le_mul_left _ (by omega)
    omega
  have heq : flSums body 0 0 = flSpecSums body 0 0 :=
    flSums_eq_spec body 0 0 (by omega) (by omega)
  have hfst : (flSpecSums body 0 0).1 = body.sum := by
    simpa using flSpecSums_fst body 0 0
  have hsnd : (flSpecSums body 0 0).2 ≤ body.length * (0 + body.sum) := by
    simpa using flSpecSums_snd_le body 0 0
  have hm1 : ((flSpecSums body 0 0).1 + (flSpecSums body 0 0).2) % 2 ^ 64 =
      (flSpecSums body 0 0).1 + (flSpecSums body 0 0).2 := by
    apply Nat.mod_eq_of_lt; omega
  have hc1lt : 0xFFFFFFFF -
      ((flSpecSums body 0 0).1 + (flSpecSums body 0 0).2) % 0xFFFFFFFF ≤
      0xFFFFFFFF := by omega
  have hm2 : ((flSpecSums body 0 0).1 +
      (0xFFFFFFFF - ((flSpecSums body 0 0).1 + (flSpecSums body 0 0).2) %
        0xFFFFFFFF)) % 2 ^ 64 =
      (flSpecSums body 0 0).1 +
      (0xFFFFFFFF - ((flSpecSums body 0 0).1 + (flSpecSums body 0 0).2) %
        0xFFFFFFFF) := by
    apply Nat.mod_eq_of_lt; omega
  have hc1lt2 : 0xFFFFFFFF -
      ((flSpecSums body 0 0).1 + (flSpecSums body 0 0).2) % 0xFFFFFFFF <
      2 ^ 32 := by omega
  simp only [fletcher64, fletcherSpec, heq]
  rw [hm1, hm2, Nat.shiftLeft_eq, Nat.mul_comm, ← Nat.mul_add_lt_is_or hc1lt2]

/-- Claim C1: for a block of the volume's block size (words all 32-bit, at
most `2 ^ 15` of them), `obj_verify_csum` returns true iff the stored 64-bit
checksum field equals the Fletcher-style checksum of the block body past the
checksum field, computed as the spec words it: `sum1 += word; sum2 += sum1`
over the little-endian 32-bit words, `c1 = (2^32-1) - ((sum1+sum2) mod
(2^32-1))`, `c2 = (2^32-1) - ((sum1+c1) mod (2^32-1))`, with `c2` in the high
and `c1` in the low 32 bits of the result. -/
theorem C1_obj_verify_csum_iff_fletcherSpec (block : List Nat)
    (hw : ∀ w ∈ block, w < 2 ^ 32) (hlen : block.length ≤ 2 ^ 15) :
    obj_verify_csum block = true ↔
      o_cksum block = fletcherSpec (block.drop 2) := by
  unfold obj_verify_csum
  rw [fletcher64_eq_spec (block.drop 2)
    (fun w hwmem => hw w (List.mem_of_mem_drop hwmem))
    (le_trans (by simp) hlen)]
  exact beq_iff_eq

/-- Witness for C1 at a concrete block: body words `[1, 2]`, checksum field
matching the spec formula. -/
theorem C1_witness :
    obj_verify_csum [4294967287, 4294967283, 1, 2] = true ↔
      o_cksum [4294967287, 4294967283, 1, 2] =
        fletcherSpec [1, 2] :=
  C1_obj_verify_csum_iff_fletcherSpec [4294967287, 4294967283, 1, 2]
    (by decide) (by norm_num)

/-- In-memory structured key (struct key): id, record type, number and an
optional name.  The name holds the C string's bytes up to (not including) the
terminating null; `none` models a NULL name pointer. -/
structure Key where
  id : Nat
  type : Nat
  number : Nat
  name : Option (List Nat)
  deriving DecidableEq, Repr

/-- Byte-for-byte C string comparison (strcmp) as an `Ordering`: the first
differing byte decides, and a strict prefix compares below, which is how
strcmp treats the terminating null against a further byte. -/
def strcmp : List Nat → List Nat → Ordering
  | [], [] => .eq
  | [], _ :: _ => .lt
  | _ :: _, [] => .gt
  | a :: as, b :: bs =>
      if a < b then .lt else if b < a then .gt else strcmp as bs

/-- `keycmp` from key.c: compare id, then type, then number; if `k1` has no
name the keys are reported equal without looking at `k2`'s name; otherwise
`strcmp(k1->name, k2->name)` runs, which dereferences `k2->name`
unconditionally — `none` models that undefined NULL dereference. -/
def keycmp (k1 k2 : Key) : Option Ordering :=
  if k1.id ≠ k2.id then some (if k1.id < k2.id then .lt else .gt)
  else if k1.type ≠ k2.type then some (if k1.type < k2.type then .lt else .gt)
  else if k1.number ≠ k2.number then
    some (if k1.number < k2.number then .lt else .gt)
  else
    match k1.name, k2.name with
    | none, _ => some .eq
    | some n1, some n2 => some (strcmp n1 n2)
    | some _, none => none

theorem strcmp_self (n : List Nat) : strcmp n n = .eq := by
  induction n with
  | nil => rfl
  | cons a as ih => simp [strcmp, ih]

theorem strcmp_eq_iff (a b : List Nat) : strcmp a b = .eq ↔ a = b := by
  induction a generalizing b with
  | nil => cases b <;> simp [strcmp]
  | cons x xs ih =>
      cases b with
      | nil => simp [strcmp]
      | cons y ys =>
          by_cases h1 : x < y
          · have hne : x ≠ y := by omega
            simp [strcmp, h1, hne]
          · by_cases h2 : y < x
            · have hne : x ≠ y := by omega
              simp [strcmp, h1, h2, hne]
            · have hxy : x = y := by omega
              simp [strcmp, h1, h2, hxy, ih]

theorem strcmp_lt_gt (a b : List Nat) : strcmp a b = .lt ↔ strcmp b a = .gt := by
  induction a generalizing b with
  | nil => cases b <;> simp [strcmp]
  | cons x xs ih =>
      cases b with
      | nil => simp [strcmp]
      | cons y ys =>
          by_cases h1 : x < y
          · have h2 : ¬ y < x := by omega
            simp [strcmp, h1, h2]
          · by_cases h2 : y < x
            · simp [strcmp, h1, h2]
            · simp [strcmp, h1, h2, ih]

theorem strcmp_trans_lt (a b c : List Nat) (hab : strcmp a b = .lt)
    (hbc : strcmp b c = .lt) : strcmp a c = .lt := by
  induction a generalizing b c with
  | nil =>
      cases c with
      | nil =>
          cases b with
          | nil => exact hbc
          | cons y ys => simp [strcmp] at hbc
      | cons z zs => simp [strcmp]
  | cons x xs ih =>
      cases b with
      | nil => simp [strcmp] at hab
      | cons y ys =>
          cases c with
          | nil => simp [strcmp] at hbc
          | cons z zs =>
              by_cases hxy : x < y
              · by_cases hyz : y < z
                · simp [strcmp, show x < z by omega]
                · by_cases hzy : z < y
                  · simp [strcmp, hyz, hzy] at hbc
                  · simp [strcmp, show x < z by omega]
              · by_cases hyx : y < x
                · simp [strcmp, hxy, hyx] at hab
                · by_cases hyz : y < z
                  · simp [strcmp, show x < z by omega]
                  · by_cases hzy : z < y
                    · simp [strcmp, hyz, hzy] at hbc
                    · have hxz : ¬ x < z := by omega
                      have hzx : ¬ z < x := by omega
                      simp [strcmp, hxy, hyx] at hab
                      simp [strcmp, hyz, hzy] at hbc
                      simp [strcmp, hxz, hzx, ih ys zs hab hbc]

theorem keycmp_self (a : Key) : keycmp a a = some .eq := by
  unfold keycmp
  rcases ha : a.name with _ | n <;> simp [strcmp_self]

theorem keycmp_total (a b : Key) (h : a.name.isSome → b.name.isSome) :
    (keycmp a b).isSome := by
  unfold keycmp
  rcases ha : a.name with _ | n1 <;> rcases hb : b.name with _ | n2 <;>
    split_ifs <;> simp_all

theorem keycmp_lt_iff (a b : Key) :
    keycmp a b = some .lt ↔
      (a.id < b.id ∨ (a.id = b.id ∧ (a.type < b.type ∨ (a.type = b.type ∧
        (a.number < b.number ∨ (a.number = b.number ∧ ∃ n1 n2,
          a.name = some n1 ∧ b.name = some n2 ∧ strcmp n1 n2 = .lt)))))) := by
  unfold keycmp
  rcases ha : a.name with _ | n1 <;> rcases hb : b.name with _ | n2 <;>
    split_ifs <;> simp_all

theorem keycmp_gt_iff (a b : Key) :
    keycmp a b = some .gt ↔
      (b.id < a.id ∨ (a.id = b.id ∧ (b.type < a.type ∨ (a.type = b.type ∧
        (b.number < a.number ∨ (a.number = b.number ∧ ∃ n1 n2,
          a.name = some n1 ∧ b.name = some n2 ∧ strcmp n1 n2 = .gt)))))) := by
  unfold keycmp
  rcases ha : a.name with _ | n1 <;> rcases hb : b.name with _ | n2 <;>
    split_ifs <;> simp_all <;> omega

theorem keycmp_eq_iff (a b : Key) :
    keycmp a b = some .eq ↔
      a.id = b.id ∧ a.type = b.type ∧ a.number = b.number ∧
        (a.name = none ∨ ∃ n, a.name = some n ∧ b.name = some n) := by
  unfold keycmp
  rcases ha : a.name with _ | n1 <;> rcases hb : b.name with _ | n2 <;>
    split_ifs <;> simp_all [strcmp_eq_iff]
  exact eq_comm

/-- Claim C2 counterexample: keycmp is not total over all structured keys.
With equal id, type and number, a first key without a name compares equal to
a second key that carries one, but swapping the arguments dereferences the
NULL name (modelled as `none`), so `keycmp(b, a)` is undefined — the claimed
antisymmetry `keycmp(a,b) = 0 iff keycmp(b,a) = 0`-style totality fails. -/
theorem C2_counterexample :
    keycmp ⟨0, 0, 0, none⟩ ⟨0, 0, 0, some [120]⟩ = some .eq ∧
      keycmp ⟨0, 0, 0, some [120]⟩ ⟨0, 0, 0, none⟩ = none := by
  constructor <;> rfl

/-- Claim C2 (amended): keycmp is deterministic and, on every pair of keys
where the first key carries a name only if the second does, total; it is
reflexively equal, antisymmetric and transitive (both for strict order and
for equality), it orders by id first, then type, then number, then — only
when a name is present — the name byte-for-byte, and two keys with equal id,
type and number that both carry no name compare equal. -/
theorem C2_keycmp_strict_weak_order :
    (∀ a : Key, keycmp a a = some .eq) ∧
    (∀ a b : Key, (a.name.isSome → b.name.isSome) → (keycmp a b).isSome) ∧
    (∀ a b : Key, keycmp a b = some .lt ↔ keycmp b a = some .gt) ∧
    (∀ a b c : Key, keycmp a b = some .lt → keycmp b c = some .lt →
      keycmp a c = some .lt) ∧
    (∀ a b c : Key, keycmp a b = some .eq → keycmp b c = some .eq →
      keycmp a c = some .eq) ∧
    (∀ a b : Key, keycmp a b = some .lt ↔
      (a.id < b.id ∨ (a.id = b.id ∧ (a.type < b.type ∨ (a.type = b.type ∧
        (a.number < b.number ∨ (a.number = b.number ∧ ∃ n1 n2,
          a.name = some n1 ∧ b.name = some n2 ∧ strcmp n1 n2 = .lt))))))) ∧
    (∀ a b : Key, a.id = b.id → a.type = b.type → a.number = b.number →
      a.name = none → b.name = none → keycmp a b = some .eq) := by
  refine ⟨keycmp_self, keycmp_total, ?_, ?_, ?_, keycmp_lt_iff, ?_⟩
  · intro a b
    rw [keycmp_lt_iff, keycmp_gt_iff]
    constructor
    · rintro (h | ⟨hid, h | ⟨hty, h | ⟨hnum, n1, n2, ha, hb, hs⟩⟩⟩)
      · exact Or.inl h
      · exact Or.inr ⟨hid.symm, Or.inl h⟩
      · exact Or.inr ⟨hid.symm, Or.inr ⟨hty.symm, Or.inl h⟩⟩
      · exact Or.inr ⟨hid.symm, Or.inr ⟨hty.symm, Or.inr ⟨hnum.symm,
          n2, n1, hb, ha, (strcmp_lt_gt n1 n2).1 hs⟩⟩⟩
    · rintro (h | ⟨hid, h | ⟨hty, h | ⟨hnum, n2, n1, hb, ha, hs⟩⟩⟩)
      · exact Or.inl h
      · exact Or.inr ⟨hid.symm, Or.inl h⟩
      · exact Or.inr ⟨hid.symm, Or.inr ⟨hty.symm, Or.inl h⟩⟩
      · exact Or.inr ⟨hid.symm, Or.inr ⟨hty.symm, Or.inr ⟨hnum.symm,
          n1, n2, ha, hb, (strcmp_lt_gt n1 n2).2 hs⟩⟩⟩
  · intro a b c hab hbc
    rw [keycmp_lt_iff] at hab hbc ⊢
    rcases hab with h1 | ⟨e1, h1 | ⟨f1, h1 | ⟨g1, n1, n2, ha1, hb1, hs1⟩⟩⟩ <;>
      rcases hbc with h2 | ⟨e2, h2 | ⟨f2, h2 | ⟨g2, m2, m3, hb2, hc2, hs2⟩⟩⟩ <;>
      first
      | exact Or.inl (by omega)
      | exact Or.inr ⟨by omega, Or.inl (by omega)⟩
      | exact Or.inr ⟨by omega, Or.inr ⟨by omega, Or.inl (by omega)⟩⟩
      | (rw [hb1] at hb2; injection hb2 with hh; subst hh;
         exact Or.inr ⟨by omega, Or.inr ⟨by omega, Or.inr ⟨by omega,
           n1, m3, ha1, hc2, strcmp_trans_lt n1 n2 m3 hs1 hs2⟩⟩⟩)
  · intro a b c hab hbc
    rw [keycmp_eq_iff] at hab hbc ⊢
    obtain ⟨i1, t1, u1, h1⟩ := hab
    obtain ⟨i2, t2, u2, h2⟩ := hbc
    refine ⟨by omega, by omega, by omega, ?_⟩
    rcases h1 with h1 | ⟨n, han, hbn⟩
    · exact Or.inl h1
    · rcases h2 with h2 | ⟨m, hbm, hcm⟩
      · rw [h2] at hbn; simp at hbn
      · rw [hbn] at hbm
        injection hbm with hh
        subst hh
        exact Or.inr ⟨n, han, hcm⟩
  · intro a b hid hty hnum hn1 _
    rw [keycmp_eq_iff]
    exact ⟨hid, hty, hnum, Or.inl hn1⟩

/-- Witness for C2 (amended) at concrete keys. -/
theorem C2_witness :
    keycmp ⟨1, 2, 3, some [97]⟩ ⟨1, 2, 3, some [97]⟩ = some .eq ∧
      (keycmp ⟨1, 2, 3, some [97]⟩ ⟨1, 2, 3, some [98]⟩).isSome :=
  ⟨C2_keycmp_strict_weak_order.1 _,
   C2_keycmp_strict_weak_order.2.1 ⟨1, 2, 3, some [97]⟩ ⟨1, 2, 3, some [98]⟩
     (fun _ => rfl)⟩

/-- Claim C9: keycmp guards the name comparison only on the first key's
name: with equal id, type and number and a nameless first key it returns
equal whatever the second key's name is; when the first key carries a name
and the second does not, the C code dereferences NULL (modelled `none`), so
keycmp is total exactly under the precondition that the first key carrying a
name forces the second to carry one. -/
theorem C9_keycmp_name_guard :
    (∀ k1 k2 : Key, k1.id = k2.id → k1.type = k2.type →
      k1.number = k2.number → k1.name = none → keycmp k1 k2 = some .eq) ∧
    (∀ k1 k2 : Key, ∀ n1 : List Nat, k1.id = k2.id → k1.type = k2.type →
      k1.number = k2.number → k1.name = some n1 → k2.name = none →
      keycmp k1 k2 = none) ∧
    (∀ k1 k2 : Key, (k1.name.isSome → k2.name.isSome) →
      (keycmp k1 k2).isSome) := by
  refine ⟨?_, ?_, keycmp_total⟩
  · intro k1 k2 hid hty hnum hname
    unfold keycmp
    simp [hid, hty, hnum, hname]
  · intro k1 k2 n1 hid hty hnum h1 h2
    unfold keycmp
    simp [hid, hty, hnum, h1, h2]

/-- Witness for C9 at concrete keys. -/
theorem C9_witness :
    keycmp ⟨5, 1, 7, none⟩ ⟨5, 1, 7, some [1, 2]⟩ = some .eq ∧
      keycmp ⟨5, 1, 7, some [1]⟩ ⟨5, 1, 7, none⟩ = none :=
  ⟨C9_keycmp_name_guard.1 _ _ rfl rfl rfl rfl,
   C9_keycmp_name_guard.2.1 _ _ [1] rfl rfl rfl rfl rfl⟩

/-- Little-endian integer value of `n` bytes of `raw` starting at offset
`off` (`le16_to_cpu`, `le32_to_cpu`, `le64_to_cpu` at a field offset). -/
def leBytes (raw : List Nat) (off : Nat) : Nat → Nat
  | 0 => 0
  | n + 1 => raw.getD off 0 + 256 * leBytes raw (off + 1) n

/-- Content of a NUL-terminated C string laid out in `l`: the bytes strictly
before the first zero byte, so `(cstr l).length` is `strlen`. -/
def cstr (l : List Nat) : List Nat := l.takeWhile (fun b => b != 0)

/-- Modelled from the spec: the fixed on-disk key sizes.  The layout headers
(`apfs/types.h`) are outside the provided sources; the object-map key is two
64-bit fields (`ok_oid`, `ok_xid`). -/
def sizeof_apfs_omap_key : Nat := 16

/-- Modelled from the spec: size of the common catalog key header, one
64-bit `obj_id_and_type` field. -/
def sizeof_apfs_key_header : Nat := 8

/-- Modelled from the spec: size of the fixed part of a hashed directory
record key, the 8-byte header plus the 32-bit `name_len_and_hash` field. -/
def sizeof_apfs_drec_hashed_key : Nat := 12

/-- Modelled from the spec: size of the fixed part of an xattr key, the
8-byte header plus the 16-bit `name_len` field. -/
def sizeof_apfs_xattr_key : Nat := 10

/-- Modelled from the spec: size of the fixed part of a snapshot name key,
the 8-byte header plus the 16-bit `name_len` field. -/
def sizeof_apfs_snap_name_key : Nat := 10

/-- Modelled from the spec: one bit step of the CRC-32C (Castagnoli)
reflected rolling checksum the filename hasher feeds code points through;
the checksum code itself (crc32c.c) is outside the provided sources. -/
def crc32cRound (c : Nat) : Nat :=
  if c % 2 = 1 then (c / 2) ^^^ 0x82F63B78 else c / 2

/-- Modelled from the spec: CRC-32C update by one byte (eight bit steps
after mixing the byte into the low bits). -/
def crc32cByte (crc b : Nat) : Nat :=
  crc32cRound (crc32cRound (crc32cRound (crc32cRound
    (crc32cRound (crc32cRound (crc32cRound (crc32cRound (crc ^^^ b))))))))

/-- Modelled from the spec: CRC-32C update by one code point fed as a 4-byte
little-endian value (`crc32c(hash, &utf32, sizeof(utf32))`). -/
def crc32cWord (crc w : Nat) : Nat :=
  crc32cByte (crc32cByte (crc32cByte (crc32cByte crc (w % 256))
    (w / 256 % 256)) (w / 65536 % 256)) (w / 16777216 % 256)

/-- `dentry_hash` from key.c, with the unicode normalization left abstract:
`normalize case_fold name` stands for the sequence of code points produced
by repeated `normalize_next` (decomposed, case-folded when `case_fold`);
unicode.c is outside the provided sources.  The hash starts at all-ones,
folds `crc32cWord` over the code points, and the result packs the low
22 bits of the hash above the 10-bit raw byte length of the name, which
counts the terminating null (`namelen = cursor.utf8curr - name`). -/
def dentry_hash (normalize : Bool → List Nat → List Nat) (case_fold : Bool)
    (name : List Nat) : Nat :=
  ((List.foldl crc32cWord 0xFFFFFFFF (normalize case_fold name) &&& 0x3FFFFF)
      <<< 10) ||| ((name.length + 1) &&& 0x3FF)

/-- Defect categories, one per distinct `report` call in the key decoders of
key.c. -/
inductive KeyDefect where
  | omapWrongSize
  | omapZeroXid
  | drecWrongSize
  | drecNoNull
  | drecBadHash
  | drecWrongNameLen
  | drecSizeMismatch
  | xattrWrongSize
  | xattrNoNull
  | xattrWrongNameLen
  | xattrSizeMismatch
  | snapWrongSize
  | snapNoNull
  | snapWrongNameLen
  | snapSizeMismatch
  deriving DecidableEq, Repr

/-- `read_omap_key` from key.c: reject a key whose recorded size is not the
object-map key size or whose transaction id is zero, otherwise produce the
structured key. -/
def read_omap_key (raw : List Nat) (size : Nat) : Except KeyDefect Key :=
  if size ≠ sizeof_apfs_omap_key then .error .omapWrongSize
  else if leBytes raw 8 8 = 0 then .error .omapZeroXid
  else .ok { id := leBytes raw 0 8, type := 0, number := leBytes raw 8 8,
             name := none }

/-- `read_dir_rec_key` from key.c: size at least header plus one, trailing
null, stored `name_len_and_hash` equal to the recomputed `dentry_hash`,
`strlen(name) + 1` equal to the 10 length bits, and total size equal to
header size plus that length.  Produces the `(number, name)` fields the C
code stores into the key. -/
def read_dir_rec_key (normalize : Bool → List Nat → List Nat)
    (case_fold : Bool) (raw : List Nat) (size : Nat) :
    Except KeyDefect (Nat × List Nat) :=
  if size < sizeof_apfs_drec_hashed_key + 1 then .error .drecWrongSize
  else if raw.getD (size - 1) 0 ≠ 0 then .error .drecNoNull
  else
    let number := leBytes raw 8 4
    let name := cstr (raw.drop 12)
    if number ≠ dentry_hash normalize case_fold name then .error .drecBadHash
    else if name.length + 1 ≠ number &&& 0x3FF then .error .drecWrongNameLen
    else if size ≠ sizeof_apfs_drec_hashed_key + (number &&& 0x3FF) then
      .error .drecSizeMismatch
    else .ok (number, name)

/-- `read_xattr_key` from key.c: size at least header plus one, trailing
null, declared `name_len` equal to `strlen(name) + 1`, total size equal to
header size plus the declared length; the stored number is zero. -/
def read_xattr_key (raw : List Nat) (size : Nat) :
    Except KeyDefect (Nat × List Nat) :=
  if size < sizeof_apfs_xattr_key + 1 then .error .xattrWrongSize
  else if raw.getD (size - 1) 0 ≠ 0 then .error .xattrNoNull
  else
    let namelen := leBytes raw 8 2
    let name := cstr (raw.drop 10)
    if name.length + 1 ≠ namelen then .error .xattrWrongNameLen
    else if size ≠ sizeof_apfs_xattr_key + namelen then
      .error .xattrSizeMismatch
    else .ok (0, name)

/-- `read_snap_name_key` from key.c: identical checks to the xattr key, with
its own report category. -/
def read_snap_name_key (raw : List Nat) (size : Nat) :
    Except KeyDefect (Nat × List Nat) :=
  if size < sizeof_apfs_snap_name_key + 1 then .error .snapWrongSize
  else if raw.getD (size - 1) 0 ≠ 0 then .error .snapNoNull
  else
    let namelen := leBytes raw 8 2
    let name := cstr (raw.drop 10)
    if name.length + 1 ≠ namelen then .error .snapWrongNameLen
    else if size ≠ sizeof_apfs_snap_name_key + namelen then
      .error .snapSizeMismatch
    else .ok (0, name)

theorem dentry_hash_split (normalize : Bool → List Nat → List Nat)
    (case_fold : Bool) (name : List Nat) :
    dentry_hash normalize case_fold name =
      2 ^ 10 * (List.foldl crc32cWord 0xFFFFFFFF (normalize case_fold name) %
        2 ^ 22) + (name.length + 1) % 2 ^ 10 := by
  unfold dentry_hash
  have e1 : List.foldl crc32cWord 0xFFFFFFFF (normalize case_fold name) &&&
      0x3FFFFF = List.foldl crc32cWord 0xFFFFFFFF (normalize case_fold name) %
      2 ^ 22 := by
    have := Nat.and_pow_two_sub_one_eq_mod
      (List.foldl crc32cWord 0xFFFFFFFF (normalize case_fold name)) 22
    norm_num at this
    exact this
  have e2 : (name.length + 1) &&& 0x3FF = (name.length + 1) % 2 ^ 10 := by
    have := Nat.and_pow_two_sub_one_eq_mod (name.length + 1) 10
    norm_num at this
    exact this
  have hb : (name.length + 1) % 2 ^ 10 < 2 ^ 10 :=
    Nat.mod_lt _ (by norm_num)
  rw [e1, e2, Nat.shiftLeft_eq, Nat.mul_comm, ← Nat.mul_add_lt_is_or hb]

theorem dentry_hash_lt (normalize : Bool → List Nat → List Nat)
    (case_fold : Bool) (name : List Nat) :
    dentry_hash normalize case_fold name < 2 ^ 32 := by
  rw [dentry_hash_split]
  have h1 : List.foldl crc32cWord 0xFFFFFFFF (normalize case_fold name) %
      2 ^ 22 < 2 ^ 22 := Nat.mod_lt _ (by norm_num)
  have h2 : (name.length + 1) % 2 ^ 10 < 2 ^ 10 := Nat.mod_lt _ (by norm_num)
  omega

/-- Claim C5: the filename hash seeds the CRC-32C rolling checksum at
all-ones, folds it over the normalized (optionally case-folded) code points
as 4-byte values, and packs the low 22 bits of the checksum into bits 10-31
with the raw byte length of the name including its terminating null in bits
0-9 (as a 10-bit field). -/
theorem C5_dentry_hash_packing (normalize : Bool → List Nat → List Nat)
    (case_fold : Bool) (name : List Nat) :
    dentry_hash normalize case_fold name % 2 ^ 10 =
        (name.length + 1) % 2 ^ 10 ∧
      dentry_hash normalize case_fold name / 2 ^ 10 =
        List.foldl crc32cWord 0xFFFFFFFF (normalize case_fold name) %
          2 ^ 22 := by
  rw [dentry_hash_split]
  have h2 : (name.length + 1) % 2 ^ 10 < 2 ^ 10 := Nat.mod_lt _ (by norm_num)
  omega

/-- Claim C8: `read_omap_key` reports a defect exactly when the raw key size
differs from the object-map key size or the embedded transaction id is zero,
and on success produces the key with the stored object id, type 0, the
transaction id as number, and no name. -/
theorem C8_read_omap_key_spec (raw : List Nat) (size : Nat) :
    ((∃ d, read_omap_key raw size = .error d) ↔
      (size ≠ sizeof_apfs_omap_key ∨ leBytes raw 8 8 = 0)) ∧
    (∀ k : Key, read_omap_key raw size = .ok k ↔
      (size = sizeof_apfs_omap_key ∧ leBytes raw 8 8 ≠ 0 ∧
        k = ⟨leBytes raw 0 8, 0, leBytes raw 8 8, none⟩)) := by
  unfold read_omap_key
  constructor
  · split_ifs <;> simp_all
  · intro k
    split_ifs <;> simp_all [eq_comm]

/-- Claim C6: each name-bearing key decoder (directory record, xattr,
snapshot name) reports a defect — and produces no structured key — whenever
the payload lacks a trailing null terminator, or the declared name length
differs from the actual null-terminated string length (strlen + 1), or the
total key size differs from the fixed header size plus the declared name
length.  For the directory record the declared length is the low 10 bits of
`name_len_and_hash`. -/
theorem C6_name_key_decoders_reject :
    (∀ (normalize : Bool → List Nat → List Nat) (case_fold : Bool)
        (raw : List Nat) (size : Nat),
      (raw.getD (size - 1) 0 ≠ 0 ∨
        (cstr (raw.drop 12)).length + 1 ≠ leBytes raw 8 4 &&& 0x3FF ∨
        size ≠ sizeof_apfs_drec_hashed_key + (leBytes raw 8 4 &&& 0x3FF)) →
      ∃ d, read_dir_rec_key normalize case_fold raw size = .error d) ∧
    (∀ (raw : List Nat) (size : Nat),
      (raw.getD (size - 1) 0 ≠ 0 ∨
        (cstr (raw.drop 10)).length + 1 ≠ leBytes raw 8 2 ∨
        size ≠ sizeof_apfs_xattr_key + leBytes raw 8 2) →
      ∃ d, read_xattr_key raw size = .error d) ∧
    (∀ (raw : List Nat) (size : Nat),
      (raw.getD (size - 1) 0 ≠ 0 ∨
        (cstr (raw.drop 10)).length + 1 ≠ leBytes raw 8 2 ∨
        size ≠ sizeof_apfs_snap_name_key + leBytes raw 8 2) →
      ∃ d, read_snap_name_key raw size = .error d) := by
  refine ⟨?_, ?_, ?_⟩
  · intro normalize case_fold raw size h
    simp only [read_dir_rec_key]
    split_ifs <;>
      first
      | exact ⟨_, rfl⟩
      | (rcases h with h | h | h <;> simp_all)
  · intro raw size h
    simp only [read_xattr_key]
    split_ifs <;>
      first
      | exact ⟨_, rfl⟩
      | (rcases h with h | h | h <;> simp_all)
  · intro raw size h
    simp only [read_snap_name_key]
    split_ifs <;>
      first
      | exact ⟨_, rfl⟩
      | (rcases h with h | h | h <;> simp_all)

/-- Witness for C6 at a one-byte payload with no null terminator. -/
theorem C6_witness :
    (∃ d, read_dir_rec_key (fun _ l => l) false [1] 1 = .error d) ∧
      (∃ d, read_xattr_key [1] 1 = .error d) ∧
      (∃ d, read_snap_name_key [1] 1 = .error d) :=
  ⟨C6_name_key_decoders_reject.1 (fun _ l => l) false [1] 1
      (Or.inl (by decide)),
   C6_name_key_decoders_reject.2.1 [1] 1 (Or.inl (by decide)),
   C6_name_key_decoders_reject.2.2 [1] 1 (Or.inl (by decide))⟩

/-- The four little-endian bytes of a 32-bit value, used to lay out the
stored `name_len_and_hash` field when building a raw key. -/
def le32bytes (v : Nat) : List Nat :=
  [v % 256, v / 256 % 256, v / 65536 % 256, v / 16777216 % 256]

theorem getD_append_skip (a b : List Nat) (k : Nat) :
    (a ++ b).getD (a.length + k) 0 = b.getD k 0 := by
  rw [List.getD_append_right _ _ _ _ (by omega)]
  congr 1
  omega

theorem leBytes_append (hdr rest : List Nat) (off n : Nat) :
    leBytes (hdr ++ rest) (hdr.length + off) n = leBytes rest off n := by
  induction n generalizing off with
  | zero => rfl
  | succ n ih =>
      have h2 : hdr.length + off + 1 = hdr.length + (off + 1) := by omega
      simp only [leBytes, getD_append_skip, h2, ih]

theorem leBytes_four (b0 b1 b2 b3 : Nat) (rest : List Nat) :
    leBytes (b0 :: b1 :: b2 :: b3 :: rest) 0 4 =
      b0 + 256 * (b1 + 256 * (b2 + 256 * b3)) := by
  simp [leBytes]

theorem leBytes_le32bytes (v : Nat) (rest : List Nat) (hv : v < 2 ^ 32) :
    leBytes (le32bytes v ++ rest) 0 4 = v := by
  have h : le32bytes v ++ rest =
      v % 256 :: v / 256 % 256 :: v / 65536 % 256 :: v / 16777216 % 256 ::
        rest := rfl
  rw [h, leBytes_four]
  omega

theorem cstr_append_null (n : List Nat) (h : ∀ b ∈ n, b ≠ 0) :
    cstr (n ++ [0]) = n := by
  induction n with
  | nil => rfl
  | cons a as ih =>
      have ha : (a != 0) = true := by
        simpa using h a (List.mem_cons_self a as)
      have ihh := ih (fun b hb => h b (List.mem_cons_of_mem a hb))
      simp only [cstr] at ihh ⊢
      rw [List.cons_append]
      simp [ha, ihh]

theorem read_dir_rec_key_built (normalize : Bool → List Nat → List Nat)
    (case_fold : Bool) (hdr name : List Nat) (v : Nat)
    (hh : hdr.length = 8) (hn : ∀ b ∈ name, b ≠ 0) (hv : v < 2 ^ 32) :
    read_dir_rec_key normalize case_fold
      (hdr ++ (le32bytes v ++ (name ++ [0])))
      (hdr ++ (le32bytes v ++ (name ++ [0]))).length =
      (if v ≠ dentry_hash normalize case_fold name then
        Except.error KeyDefect.drecBadHash
      else if name.length + 1 ≠ v &&& 0x3FF then
        Except.error KeyDefect.drecWrongNameLen
      else if 13 + name.length ≠ sizeof_apfs_drec_hashed_key + (v &&& 0x3FF)
      then Except.error KeyDefect.drecSizeMismatch
      else Except.ok (v, name)) := by
  have hlen : (hdr ++ (le32bytes v ++ (name ++ [0]))).length =
      13 + name.length := by
    simp only [List.length_append, le32bytes, List.length_cons,
      List.length_nil, hh]
    omega
  have hnull : (hdr ++ (le32bytes v ++ (name ++ [0]))).getD
      (12 + name.length) 0 = 0 := by
    have h1 : 12 + name.length = hdr.length + (4 + name.length) := by omega
    rw [h1, getD_append_skip]
    show (le32bytes v ++ (name ++ [0])).getD ((le32bytes v).length +
      name.length) 0 = 0
    rw [getD_append_skip]
    have h3 := getD_append_skip name [0] 0
    simp only [Nat.add_zero] at h3
    rw [h3]
    rfl
  have hnum : leBytes (hdr ++ (le32bytes v ++ (name ++ [0]))) 8 4 = v := by
    have h1 : (8 : Nat) = hdr.length + 0 := by omega
    rw [h1, leBytes_append]
    exact leBytes_le32bytes v (name ++ [0]) hv
  have hname : cstr ((hdr ++ (le32bytes v ++ (name ++ [0]))).drop 12) =
      name := by
    have hassoc : hdr ++ (le32bytes v ++ (name ++ [0])) =
        (hdr ++ le32bytes v) ++ (name ++ [0]) :=
      (List.append_assoc hdr (le32bytes v) (name ++ [0])).symm
    have hdl : List.drop 12 ((hdr ++ le32bytes v) ++ (name ++ [0])) =
        name ++ [0] :=
      List.drop_left' (by simp [le32bytes, hh])
    rw [hassoc, hdl]
    exact cstr_append_null name hn
  simp only [read_dir_rec_key, sizeof_apfs_drec_hashed_key, hlen, hnum, hname]
  rw [if_neg (by omega)]
  rw [if_neg (by
    rw [show 13 + name.length - 1 = 12 + name.length from by omega, hnull]
    omega)]

/-- Claim C7: for every valid name (nonzero bytes, short enough for the
10-bit length field) and any 8-byte key header, decoding a directory-record
key whose stored `name_len_and_hash` field was built by `dentry_hash`
succeeds and recovers the hash and name; and flipping any single bit of the
stored field makes decoding report the filename-hash mismatch — it never
silently succeeds. -/
theorem C7_dir_rec_key_round_trip :
    (∀ (normalize : Bool → List Nat → List Nat) (case_fold : Bool)
        (hdr name : List Nat), hdr.length = 8 → (∀ b ∈ name, b ≠ 0) →
      name.length + 1 < 1024 →
      read_dir_rec_key normalize case_fold
        (hdr ++ (le32bytes (dentry_hash normalize case_fold name) ++
          (name ++ [0])))
        (hdr ++ (le32bytes (dentry_hash normalize case_fold name) ++
          (name ++ [0]))).length =
        .ok (dentry_hash normalize case_fold name, name)) ∧
    (∀ (normalize : Bool → List Nat → List Nat) (case_fold : Bool)
        (hdr name : List Nat) (i : Nat), hdr.length = 8 →
      (∀ b ∈ name, b ≠ 0) → i < 32 →
      read_dir_rec_key normalize case_fold
        (hdr ++ (le32bytes (dentry_hash normalize case_fold name ^^^ 2 ^ i) ++
          (name ++ [0])))
        (hdr ++ (le32bytes (dentry_hash normalize case_fold name ^^^ 2 ^ i) ++
          (name ++ [0]))).length =
        .error .drecBadHash) := by
  constructor
  · intro normalize case_fold hdr name hh hn hlen1
    rw [read_dir_rec_key_built normalize case_fold hdr name _ hh hn
      (dentry_hash_lt normalize case_fold name)]
    have hmask : dentry_hash normalize case_fold name &&& 0x3FF =
        name.length + 1 := by
      have hsplit := dentry_hash_split normalize case_fold name
      have e2 := Nat.and_pow_two_sub_one_eq_mod
        (dentry_hash normalize case_fold name) 10
      norm_num at e2
      rw [e2, hsplit]
      omega
    rw [if_neg (by simp), hmask, if_neg (by omega),
      if_neg (by simp only [sizeof_apfs_drec_hashed_key]; omega)]
  · intro normalize case_fold hdr name i hh hn hi
    have hvlt : dentry_hash normalize case_fold name ^^^ 2 ^ i < 2 ^ 32 :=
      Nat.xor_lt_two_pow (dentry_hash_lt normalize case_fold name)
        (Nat.pow_lt_pow_right (by norm_num) hi)
    rw [read_dir_rec_key_built normalize case_fold hdr name _ hh hn hvlt]
    have hne : dentry_hash normalize case_fold name ^^^ 2 ^ i ≠
        dentry_hash normalize case_fold name := by
      intro hcon
      have h2 : dentry_hash normalize case_fold name ^^^
          (dentry_hash normalize case_fold name ^^^ 2 ^ i) =
          dentry_hash normalize case_fold name ^^^
            dentry_hash normalize case_fold name := by rw [hcon]
      rw [← Nat.xor_assoc, Nat.xor_self] at h2
      simp at h2
    rw [if_pos hne]

/-- Witness for C7 on the name "ab" with identity normalization and bit 3
flipped. -/
theorem C7_witness :
    read_dir_rec_key (fun _ l => l) false
        ([0, 0, 0, 0, 0, 0, 0, 0] ++
          (le32bytes (dentry_hash (fun _ l => l) false [97, 98]) ++
          ([97, 98] ++ [0])))
        ([0, 0, 0, 0, 0, 0, 0, 0] ++
          (le32bytes (dentry_hash (fun _ l => l) false [97, 98]) ++
          ([97, 98] ++ [0]))).length =
        .ok (dentry_hash (fun _ l => l) false [97, 98], [97, 98]) ∧
      read_dir_rec_key (fun _ l => l) false
        ([0, 0, 0, 0, 0, 0, 0, 0] ++
          (le32bytes (dentry_hash (fun _ l => l) false [97, 98] ^^^ 2 ^ 3) ++
          ([97, 98] ++ [0])))
        ([0, 0, 0, 0, 0, 0, 0, 0] ++
          (le32bytes (dentry_hash (fun _ l => l) false [97, 98] ^^^ 2 ^ 3) ++
          ([97, 98] ++ [0]))).length =
        .error .drecBadHash :=
  ⟨C7_dir_rec_key_round_trip.1 (fun _ l => l) false [0, 0, 0, 0, 0, 0, 0, 0]
      [97, 98] rfl (by decide) (by decide),
   C7_dir_rec_key_round_trip.2 (fun _ l => l) false [0, 0, 0, 0, 0, 0, 0, 0]
      [97, 98] 3 rfl (by decide) (by decide)⟩

/-- Claim C10: in directory-record key decoding the recomputed packed hash
is compared against the entire stored `name_len_and_hash` field before the
dedicated length check, so corruption confined to the stored length bits is
reported as a filename-hash mismatch; the distinct wrong-name-length report
is reachable only when the recomputed packed value equals the stored field
while strlen+1 differs from the 10-bit masked length, which happens e.g. for
a name whose length including the null reaches 1024 bytes. -/
theorem C10_dir_rec_length_bits :
    (∀ (normalize : Bool → List Nat → List Nat) (case_fold : Bool)
        (hdr name : List Nat) (d : Nat), hdr.length = 8 →
      (∀ b ∈ name, b ≠ 0) → d ≠ 0 → d < 2 ^ 10 →
      read_dir_rec_key normalize case_fold
        (hdr ++ (le32bytes (dentry_hash normalize case_fold name ^^^ d) ++
          (name ++ [0])))
        (hdr ++ (le32bytes (dentry_hash normalize case_fold name ^^^ d) ++
          (name ++ [0]))).length = .error .drecBadHash) ∧
    (∀ (normalize : Bool → List Nat → List Nat) (case_fold : Bool)
        (raw : List Nat) (size : Nat),
      read_dir_rec_key normalize case_fold raw size =
          .error .drecWrongNameLen →
      leBytes raw 8 4 =
          dentry_hash normalize case_fold (cstr (raw.drop 12)) ∧
        (cstr (raw.drop 12)).length + 1 ≠ leBytes raw 8 4 &&& 0x3FF) ∧
    read_dir_rec_key (fun _ _ => []) false
        ([0, 0, 0, 0, 0, 0, 0, 0] ++
          (le32bytes (dentry_hash (fun _ _ => []) false
            (List.replicate 1023 97)) ++ (List.replicate 1023 97 ++ [0])))
        ([0, 0, 0, 0, 0, 0, 0, 0] ++
          (le32bytes (dentry_hash (fun _ _ => []) false
            (List.replicate 1023 97)) ++
            (List.replicate 1023 97 ++ [0]))).length =
      .error .drecWrongNameLen := by
  refine ⟨?_, ?_, ?_⟩
  · intro normalize case_fold hdr name d hh hn hd hds
    have hvlt : dentry_hash normalize case_fold name ^^^ d < 2 ^ 32 :=
      Nat.xor_lt_two_pow (dentry_hash_lt normalize case_fold name) (by omega)
    rw [read_dir_rec_key_built normalize case_fold hdr name _ hh hn hvlt]
    have hne : dentry_hash normalize case_fold name ^^^ d ≠
        dentry_hash normalize case_fold name := by
      intro hcon
      have h2 : dentry_hash normalize case_fold name ^^^
          (dentry_hash normalize case_fold name ^^^ d) =
          dentry_hash normalize case_fold name ^^^
            dentry_hash normalize case_fold name := by rw [hcon]
      rw [← Nat.xor_assoc, Nat.xor_self] at h2
      simp at h2
      exact hd h2
    rw [if_pos hne]
  · intro normalize case_fold raw size hres
    simp only [read_dir_rec_key] at hres
    split_ifs at hres <;> simp_all
  · have hn : ∀ b ∈ List.replicate 1023 97, b ≠ 0 := by
      intro b hb
      have := List.eq_of_mem_replicate hb
      omega
    rw [read_dir_rec_key_built (fun _ _ => []) false [0, 0, 0, 0, 0, 0, 0, 0]
      (List.replicate 1023 97) _ rfl hn (dentry_hash_lt _ _ _)]
    have hmask : dentry_hash (fun _ _ => []) false (List.replicate 1023 97)
        &&& 0x3FF = 0 := by
      have hsplit := dentry_hash_split (fun _ _ => []) false
        (List.replicate 1023 97)
      have e2 := Nat.and_pow_two_sub_one_eq_mod
        (dentry_hash (fun _ _ => []) false (List.replicate 1023 97)) 10
      norm_num at e2
      rw [e2, hsplit]
      simp only [List.length_replicate]
      omega
    rw [if_neg (by simp), hmask,
      if_pos (by simp only [List.length_replicate]; omega)]

/-- Witness for C10 at the single-letter name "a" with its stored field
corrupted in length bit 0. -/
theorem C10_witness :
    read_dir_rec_key (fun _ l => l) false
        ([0, 0, 0, 0, 0, 0, 0, 0] ++
          (le32bytes (dentry_hash (fun _ l => l) false [97] ^^^ 1) ++
          ([97] ++ [0])))
        ([0, 0, 0, 0, 0, 0, 0, 0] ++
          (le32bytes (dentry_hash (fun _ l => l) false [97] ^^^ 1) ++
          ([97] ++ [0]))).length = .error .drecBadHash :=
  C10_dir_rec_length_bits.1 (fun _ l => l) false [0, 0, 0, 0, 0, 0, 0, 0]
    [97] 1 rfl (by decide) (by decide) (by decide)

/-- Modelled from the spec: the reserved-object-id threshold
(`APFS_OID_RESERVED_COUNT`); the layout constants live in headers outside
the provided sources, and the claims depend only on how the code compares
against the threshold, not on its numeric value. -/
def APFS_OID_RESERVED_COUNT : Nat := 1024

/-- Modelled from the spec: mask of the object-type bits of the `o_type`
field of an object header. -/
def APFS_OBJECT_TYPE_MASK : Nat := 0x0000ffff

/-- Modelled from the spec: mask of the flag bits of the `o_type` field. -/
def APFS_OBJECT_TYPE_FLAGS_MASK : Nat := 0xffff0000

/-- Modelled from the spec: storage-type flag value for a virtual object. -/
def APFS_OBJ_VIRTUAL : Nat := 0x00000000

/-- Modelled from the spec: storage-type flag value for a physical
object. -/
def APFS_OBJ_PHYSICAL : Nat := 0x40000000

/-- Modelled from the spec: the nonpersistent object flag bit. -/
def APFS_OBJ_NONPERSISTENT : Nat := 0x08000000

/-- Modelled from the spec: mask of all header flag bits that are defined
by the on-disk format. -/
def APFS_OBJECT_TYPE_FLAGS_DEFINED_MASK : Nat := 0xF8000000

/-- Modelled from the spec: mask of the storage-type flag bits. -/
def APFS_OBJ_STORAGETYPE_MASK : Nat := 0xc0000000

/-- Result of an object-map lookup (`struct omap_record` as used by
`read_object`): the physical block and the transaction id the map
recorded. -/
structure OmapRec where
  bno : Nat
  xid : Nat
  deriving DecidableEq, Repr

/-- In-memory object description filled by `read_object` (struct object):
requested id, resolved block number, type, flags and subtype. -/
structure Object where
  oid : Nat
  block_nr : Nat
  type : Nat
  flags : Nat
  subtype : Nat
  deriving DecidableEq, Repr

deriving instance DecidableEq for Except

/-- Defect categories, one per `report` call in `read_object`. -/
inductive ObjDefect where
  | wrongOid
  | reservedOid
  | badXid
  | omapXidMismatch
  | undefinedFlag
  | nonpersistentFlag
  | wrongVirtualFlag
  | wrongPhysicalFlag
  | badChecksum
  deriving DecidableEq, Repr

/-- The omap-vs-header transaction id check of `read_object`: it fires only
when an object map was used and the header's xid differs from the one the
map lookup recorded. -/
def omapXidBad : Option OmapRec → Nat → Bool
  | some r, xid => xid != r.xid
  | none, _ => false

/-- `read_object` from object.c, applied to the raw block words already
mapped at the resolved block number (`omap_rec.bno` when a map was used,
`oid` itself otherwise); `omap` carries the looked-up record when an object
map was used and `sxid` is the volume's current transaction id
(`sb->s_xid`).  Each `report` is fatal, so the result is the first failing
validation's defect, or the filled object when every check passes. -/
def read_object (oid : Nat) (omap : Option OmapRec) (raw : List Nat)
    (sxid : Nat) : Except ObjDefect Object :=
  if o_oid raw ≠ oid then .error .wrongOid
  else if oid < APFS_OID_RESERVED_COUNT then .error .reservedOid
  else if o_xid raw = 0 ∨ sxid < o_xid raw then .error .badXid
  else if omapXidBad omap (o_xid raw) then .error .omapXidMismatch
  else if (o_type raw &&& APFS_OBJECT_TYPE_FLAGS_MASK) &&&
      APFS_OBJECT_TYPE_FLAGS_DEFINED_MASK ≠
      o_type raw &&& APFS_OBJECT_TYPE_FLAGS_MASK then .error .undefinedFlag
  else if (o_type raw &&& APFS_OBJECT_TYPE_FLAGS_MASK) &&&
      APFS_OBJ_NONPERSISTENT ≠ 0 then .error .nonpersistentFlag
  else if omap.isSome = true ∧ (o_type raw &&& APFS_OBJECT_TYPE_FLAGS_MASK)
      &&& APFS_OBJ_STORAGETYPE_MASK ≠ APFS_OBJ_VIRTUAL then
    .error .wrongVirtualFlag
  else if omap.isNone = true ∧ (o_type raw &&& APFS_OBJECT_TYPE_FLAGS_MASK)
      &&& APFS_OBJ_STORAGETYPE_MASK ≠ APFS_OBJ_PHYSICAL then
    .error .wrongPhysicalFlag
  else if ¬ obj_verify_csum raw then .error .badChecksum
  else .ok { oid := oid,
             block_nr := match omap with | some r => r.bno | none => oid,
             type := o_type raw &&& APFS_OBJECT_TYPE_MASK,
             flags := o_type raw &&& APFS_OBJECT_TYPE_FLAGS_MASK,
             subtype := o_subtype raw }

/-- The header validations of `read_object`, in the order the claim lists
them, each paired with the defect it reports. -/
def objChecks (oid : Nat) (omap : Option OmapRec) (raw : List Nat)
    (sxid : Nat) : List (Bool × ObjDefect) :=
  [ (decide (o_oid raw ≠ oid), .wrongOid),
    (decide (oid < APFS_OID_RESERVED_COUNT), .reservedOid),
    (decide (o_xid raw = 0 ∨ sxid < o_xid raw), .badXid),
    (omapXidBad omap (o_xid raw), .omapXidMismatch),
    (decide ((o_type raw &&& APFS_OBJECT_TYPE_FLAGS_MASK) &&&
      APFS_OBJECT_TYPE_FLAGS_DEFINED_MASK ≠
      o_type raw &&& APFS_OBJECT_TYPE_FLAGS_MASK), .undefinedFlag),
    (decide ((o_type raw &&& APFS_OBJECT_TYPE_FLAGS_MASK) &&&
      APFS_OBJ_NONPERSISTENT ≠ 0), .nonpersistentFlag),
    (decide (omap.isSome = true ∧ (o_type raw &&&
      APFS_OBJECT_TYPE_FLAGS_MASK) &&& APFS_OBJ_STORAGETYPE_MASK ≠
      APFS_OBJ_VIRTUAL), .wrongVirtualFlag),
    (decide (omap.isNone = true ∧ (o_type raw &&&
      APFS_OBJECT_TYPE_FLAGS_MASK) &&& APFS_OBJ_STORAGETYPE_MASK ≠
      APFS_OBJ_PHYSICAL), .wrongPhysicalFlag),
    (!obj_verify_csum raw, .badChecksum) ]

/-- First failing check of a check list, if any. -/
def firstDefect (checks : List (Bool × ObjDefect)) : Option ObjDefect :=
  (checks.find? (fun c => c.1)).map (fun c => c.2)

/-- The object `read_object` fills in when every validation passes. -/
def passObject (oid : Nat) (omap : Option OmapRec) (raw : List Nat) :
    Object :=
  { oid := oid,
    block_nr := match omap with | some r => r.bno | none => oid,
    type := o_type raw &&& APFS_OBJECT_TYPE_MASK,
    flags := o_type raw &&& APFS_OBJECT_TYPE_FLAGS_MASK,
    subtype := o_subtype raw }

/-- Claim C3: `read_object` performs its header validations in exactly the
claimed order — stored id equals requested, id not reserved, transaction id
nonzero and at most the volume's, omap xid match when a map was used, no
undefined flags, nonpersistent clear, storage type virtual iff a map was
used and physical otherwise, checksum — reporting the first violation, and
returns an object exactly when every check passes. -/
theorem C3_read_object_check_order (oid : Nat) (omap : Option OmapRec)
    (raw : List Nat) (sxid : Nat) :
    read_object oid omap raw sxid =
        (match firstDefect (objChecks oid omap raw sxid) with
         | some d => Except.error d
         | none => Except.ok (passObject oid omap raw)) ∧
      (∀ o : Object, read_object oid omap raw sxid = .ok o ↔
        ((objChecks oid omap raw sxid).all (fun c => !c.1) = true ∧
          o = passObject oid omap raw)) := by
  have main : read_object oid omap raw sxid =
      (match firstDefect (objChecks oid omap raw sxid) with
       | some d => Except.error d
       | none => Except.ok (passObject oid omap raw)) := by
    by_cases h1 : o_oid raw ≠ oid
    · simp [read_object, objChecks, firstDefect, List.find?, h1]
    by_cases h2 : oid < APFS_OID_RESERVED_COUNT
    · simp [read_object, objChecks, firstDefect, List.find?, h1, h2]
    by_cases h3 : o_xid raw = 0 ∨ sxid < o_xid raw
    · simp [read_object, objChecks, firstDefect, List.find?, h1, h2, h3]
    by_cases h4 : omapXidBad omap (o_xid raw) = true
    · simp [read_object, objChecks, firstDefect, List.find?, h1, h2, h3, h4]
    by_cases h5 : (o_type raw &&& APFS_OBJECT_TYPE_FLAGS_MASK) &&&
        APFS_OBJECT_TYPE_FLAGS_DEFINED_MASK ≠
        o_type raw &&& APFS_OBJECT_TYPE_FLAGS_MASK
    · simp [read_object, objChecks, firstDefect, List.find?,
        h1, h2, h3, h4, h5]
    by_cases h6 : (o_type raw &&& APFS_OBJECT_TYPE_FLAGS_MASK) &&&
        APFS_OBJ_NONPERSISTENT ≠ 0
    · simp [read_object, objChecks, firstDefect, List.find?,
        h1, h2, h3, h4, h5, h6]
    by_cases h7 : omap.isSome = true ∧ (o_type raw &&&
        APFS_OBJECT_TYPE_FLAGS_MASK) &&& APFS_OBJ_STORAGETYPE_MASK ≠
        APFS_OBJ_VIRTUAL
    · simp [read_object, objChecks, firstDefect, List.find?,
        h1, h2, h3, h4, h5, h6, h7]
    by_cases h8 : omap = none ∧ (o_type raw &&&
        APFS_OBJECT_TYPE_FLAGS_MASK) &&& APFS_OBJ_STORAGETYPE_MASK ≠
        APFS_OBJ_PHYSICAL
    · simp [read_object, objChecks, firstDefect, List.find?, omapXidBad,
        h1, h2, h3, h4, h5, h6, h7, h8]
    by_cases h9 : obj_verify_csum raw = true
    · simp [read_object, objChecks, firstDefect, passObject, List.find?,
        h1, h2, h3, h4, h5, h6, h7, h8, h9]
    · simp [read_object, objChecks, firstDefect, List.find?,
        h1, h2, h3, h4, h5, h6, h7, h8, h9]
  refine ⟨main, ?_⟩
  intro o
  rw [main]
  cases hfd : (objChecks oid omap raw sxid).find? (fun c => c.1) with
  | some c =>
      have hc1 : c.1 = true := List.find?_some hfd
      have hcmem : c ∈ objChecks oid omap raw sxid :=
        List.mem_of_find?_eq_some hfd
      simp only [firstDefect, hfd, Option.map_some]
      constructor
      · intro hcon
        cases hcon
      · rintro ⟨hall, rfl⟩
        exfalso
        have := (List.all_eq_true.mp hall) c hcmem
        simp [hc1] at this
  | none =>
      simp only [firstDefect, hfd, Option.map_none]
      constructor
      · intro hok
        injection hok with h
        refine ⟨?_, h.symm⟩
        rw [List.all_eq_true]
        intro c hcmem
        have := List.find?_eq_none.mp hfd c hcmem
        simpa using this
      · rintro ⟨hall, rfl⟩
        rfl

/-- Claim C4 counterexample: at the reserved-id threshold itself the
reserved-id defect is not reported — the code's comparison is strict, so an
oid equal to the threshold (which does not strictly exceed it) proceeds past
the reserved-id check, while an oid one below it is reported. -/
theorem C4_counterexample :
    read_object APFS_OID_RESERVED_COUNT none [0, 0, 1024, 0] 5 ≠
        .error .reservedOid ∧
      read_object 1023 none [0, 0, 1023, 0] 5 = .error .reservedOid := by
  constructor <;> decide

/-- Claim C4 (amended): `read_object` reports the reserved-object-id defect
exactly when the stored object id matches the requested oid and the oid is
strictly below `APFS_OID_RESERVED_COUNT`; it proceeds past the reserved-id
check exactly for oids greater than or equal to the threshold. -/
theorem C4_reserved_oid_strict (oid : Nat) (omap : Option OmapRec)
    (raw : List Nat) (sxid : Nat) :
    read_object oid omap raw sxid = .error .reservedOid ↔
      (o_oid raw = oid ∧ oid < APFS_OID_RESERVED_COUNT) := by
  unfold read_object
  split_ifs <;> simp_all

end Apfsck
